import Mathlib

/-!
Verification development for the ComfyUI-LM-Remote web extension.

The definitions below are a shallow embedding of the JavaScript shims in
`web/comfyui/lora_loader_remote.js`, `web/comfyui/lora_stacker_remote.js` and
`web/comfyui/wanvideo_remote.js`.  Functions imported by those shims from the
upstream ComfyUI-Lora-Manager package (`mergeLoras`, the lora-text decoder,
`debounce`), and the Python reverse-proxy route table that is not part of the
web sources, are modelled from the specification; each such definition carries
a doc comment saying so.
-/

namespace LMRemote

/-- A structured lora entry: `{ name, strength, active }`.  The sync layer
never does arithmetic on strengths, it only copies them between
representations, so the strength is carried as its decimal text. -/
structure LoraEntry where
  name : String
  strength : String
  active : Bool
deriving DecidableEq

/-! ## Lora text codec (modelled from the spec)

The shims call `mergeLoras(text, currentLoras)` from the upstream package
`/extensions/ComfyUI-Lora-Manager/utils.js`, which is not part of this
repository.  The spec describes it as decoding the text into entries and
merging with the current structured list. -/

/-- Scan characters up to the first closing `>`; returns the characters
before it and the remaining characters after it, or `none` when no `>`
remains. -/
def takeUntilGt : List Char → Option (List Char × List Char)
  | [] => none
  | c :: cs =>
    if c = '>' then some ([], cs)
    else (takeUntilGt cs).map fun p => (c :: p.1, p.2)

/-- The characters of the opening tag of a lora token. -/
def loraTagChars : List Char := ['<', 'l', 'o', 'r', 'a', ':']

/-- Split a character list on every `:`. -/
def splitOnColon : List Char → List (List Char)
  | [] => [[]]
  | c :: cs =>
    let rest := splitOnColon cs
    if c = ':' then [] :: rest
    else
      match rest with
      | [] => [[c]]
      | r :: rs => (c :: r) :: rs

/-- Modelled from the spec: parse the inside of one `<lora:...>` token.
`name:strength` yields both parts, a bare `name` defaults the strength
(the spec's 1.0), anything else is malformed and ignored. -/
def parseToken (inside : List Char) : Option (String × String) :=
  match splitOnColon inside with
  | [n] => if n.isEmpty then none else some (⟨n⟩, "1")
  | [n, s] => if n.isEmpty then none else some (⟨n⟩, ⟨s⟩)
  | _ => none

/-- Fuelled scanner collecting the inside of every `<lora:...>` token in
left-to-right order. -/
def scanTokensAux : Nat → List Char → List (List Char)
  | 0, _ => []
  | _ + 1, [] => []
  | fuel + 1, c :: cs =>
    if loraTagChars.isPrefixOf (c :: cs) then
      match takeUntilGt (List.drop 5 cs) with
      | some (inside, rest) => inside :: scanTokensAux fuel rest
      | none => []
    else scanTokensAux fuel cs

/-- All well-formed `(name, strength)` token pairs of a text, left to right. -/
def scanTokens (text : String) : List (String × String) :=
  (scanTokensAux text.data.length text.data).filterMap parseToken

/-- Replace the strength recorded for name `n` by `s`. -/
def updateStrength (acc : List (String × String)) (n s : String) :
    List (String × String) :=
  acc.map fun p => if p.1 = n then (n, s) else p

/-- Modelled from the spec: duplicate names collapse to the last occurrence's
strength while keeping the first occurrence's position. -/
def dedupTokens (ts : List (String × String)) : List (String × String) :=
  ts.foldl
    (fun acc p =>
      if acc.any (fun q => q.1 = p.1) then updateStrength acc p.1 p.2
      else acc ++ [p])
    []

/-- Modelled from the spec: `decode(text)` extracts every well-formed
`<lora:name:strength>` token in order; malformed tokens are ignored;
extracted entries are active. -/
def decodeLoras (text : String) : List LoraEntry :=
  (dedupTokens (scanTokens text)).map fun p =>
    { name := p.1, strength := p.2, active := true }

/-- First entry carrying the given name. -/
def findByName (l : List LoraEntry) (n : String) : Option LoraEntry :=
  l.find? fun e => e.name = n

/-- Modelled from the spec: union by name; an entry present in both keeps the
current list's `active` flag but adopts the incoming strength; entries only in
the incoming list are appended at the end with `active = true`; entries only
in the current list are kept unchanged. -/
def mergeEntries (incoming current : List LoraEntry) : List LoraEntry :=
  (current.map fun c =>
    match findByName incoming c.name with
    | some i => { name := c.name, strength := i.strength, active := c.active }
    | none => c)
  ++ (incoming.filter fun i => findByName current i.name = none).map
      fun i => { i with active := true }

/-- Modelled from the spec: `mergeLoras(text, currentLoras)` from the upstream
utils module — decode the text, then merge with the current structured list. -/
def mergeLoras (text : String) (current : List LoraEntry) : List LoraEntry :=
  mergeEntries (decodeLoras text) current

/-- Names of the active entries of a list, in order. -/
def activeNamesOf (l : List LoraEntry) : List String :=
  (l.filter fun e => e.active).map fun e => e.name

/-! ## JS string helpers -/

/-- JS whitespace test for the characters that matter here
(space, tab, carriage return, line feed). -/
def isJsSpace (c : Char) : Bool := c = ' ' ∨ c = '\t' ∨ c = '\r' ∨ c = '\n'

/-- `String.prototype.trim`: strip whitespace from both ends. -/
def jsTrim (s : String) : String :=
  ⟨((s.data.dropWhile isJsSpace).reverse.dropWhile isJsSpace).reverse⟩

/-! ## Node model and the lora-code update handler
(`lora_loader_remote.js`, `handleLoraCodeUpdate` / `updateNodeLoraCode`) -/

/-- The text input widget of a node: its current string value and whether a
change callback is installed (`typeof inputWidget.callback === "function"`). -/
structure Widget where
  value : String
  hasCallback : Bool
deriving DecidableEq

/-- A graph node as seen by the handler: its id, its `comfyClass`, and its
optional input widget. -/
structure Node where
  id : Int
  comfyClass : String
  inputWidget : Option Widget
deriving DecidableEq

def loaderClass : String := "Lora Loader (Remote, LoraManager)"
def stackerClass : String := "Lora Stacker (Remote, LoraManager)"
def wanvideoClass : String := "WanVideo Lora Select (Remote, LoraManager)"

/-- The classes accepted by the targeted branch of `handleLoraCodeUpdate`. -/
def isRemoteLoraClass (c : String) : Bool :=
  c = loaderClass ∨ c = stackerClass ∨ c = wanvideoClass

/-- `updateNodeLoraCode(node, loraCode, mode)`: if the node has no input
widget, do nothing; in `"replace"` mode set the widget text to the payload;
otherwise append the payload to the trimmed current text, separated by one
space when the trimmed text is non-empty.  Returns the updated node and the
argument the widget callback is invoked with (`none` when no callback). -/
def updateNodeLoraCode (node : Node) (loraCode mode : String) :
    Node × Option String :=
  match node.inputWidget with
  | none => (node, none)
  | some w =>
    let currentValue := w.value
    let newValue :=
      if mode = "replace" then loraCode
      else if jsTrim currentValue ≠ "" then jsTrim currentValue ++ " " ++ loraCode
      else loraCode
    ({ node with inputWidget := some { w with value := newValue } },
      if w.hasCallback then some newValue else none)

/-- A `node_id` field of the inbound event: a number or a string. -/
inductive JsId where
  | num (n : Int)
  | str (s : String)
deriving DecidableEq

/-- The inbound `lora_code_update` event payload. -/
structure Message where
  node_id : Option JsId
  lora_code : String
  mode : String
deriving DecidableEq

/-- Decimal digits to a number, `none` when empty or a non-digit appears. -/
def digitsToNat? (cs : List Char) : Option Nat :=
  match cs with
  | [] => none
  | _ =>
    cs.foldl
      (fun acc c =>
        match acc with
        | none => none
        | some n => if c.isDigit then some (n * 10 + (c.toNat - 48)) else none)
      (some 0)

/-- JS `Number(s)` restricted to the integer forms the handler cares about;
`none` stands for `NaN` (a non-numeric string), which never matches a node. -/
def jsNumberInt? (s : String) : Option Int :=
  match s.data with
  | '-' :: rest => (digitsToNat? rest).map fun n => -(n : Int)
  | ds => (digitsToNat? ds).map fun n => (n : Int)

/-- `typeof nodeId === "string" ? Number(nodeId) : nodeId`; `none` stands for
a missing id or a string that is not a number (JS `NaN`), which never matches
any node. -/
def toNumericId : Option JsId → Option Int
  | none => none
  | some (.num n) => some n
  | some (.str s) => jsNumberInt? s

/-- Replace the first node carrying the given id (the JS handler mutates the
object returned by `getNodeFromGraph`). -/
def replaceFirstById : List Node → Int → Node → List Node
  | [], _, _ => []
  | n :: rest, nid, node =>
    if n.id = nid then node :: rest
    else n :: replaceFirstById rest nid node

/-- `handleLoraCodeUpdate(message)` over a graph given as a node list.
`node_id = -1` broadcasts: every node whose `comfyClass` is the remote loader
class gets `updateNodeLoraCode`; any other id is looked up in the graph and
updated only when its class is one of the three remote lora classes.  Returns
the resulting graph and the list of `(node id, value)` widget-callback
invocations. -/
def handleLoraCodeUpdate (graph : List Node) (msg : Message) :
    List Node × List (Int × String) :=
  match toNumericId msg.node_id with
  | none => (graph, [])
  | some nid =>
    if nid = -1 then
      (graph.map fun node =>
          if node.comfyClass = loaderClass then
            (updateNodeLoraCode node msg.lora_code msg.mode).1
          else node,
        graph.filterMap fun node =>
          if node.comfyClass = loaderClass then
            (updateNodeLoraCode node msg.lora_code msg.mode).2.map
              fun v => (node.id, v)
          else none)
    else
      match graph.find? (fun n => n.id = nid) with
      | none => (graph, [])
      | some node =>
        if isRemoteLoraClass node.comfyClass then
          let r := updateNodeLoraCode node msg.lora_code msg.mode
          (replaceFirstById graph nid r.1,
            match r.2 with
            | some v => [(node.id, v)]
            | none => [])
        else (graph, [])

/-! ## Per-node sync state machine
(the `onNodeCreated` closures of the three shims) -/

/-- The per-node closure state: the two reentrancy flags (`isUpdating`,
`isSyncingInput`), the text widget value, the structured entry list
(`lorasWidget.value`), the sequence of active-name sets handed to
`updateConnectedTriggerWords`, the lora list captured by the pending debounced
sync (`none` when no sync is pending), and a counter of writes to the text
widget's value. -/
structure SyncState where
  updating : Bool
  syncing : Bool
  text : String
  entries : List LoraEntry
  propagated : List (List String)
  pending : Option (List LoraEntry)
  writes : Nat
deriving DecidableEq

/-- Modelled from the spec: `debounce` (from the upstream
`lora_syntax_utils.js`) is a trailing-edge debounce — scheduling replaces any
pending call, so at most one sync is pending per node at a time. -/
def scheduleInputSync (st : SyncState) (lorasValue : List LoraEntry) :
    SyncState :=
  { st with pending := some lorasValue }

/-- The state the debounced-sync body runs in between setting and clearing
its guards: `isSyncingInput = true; isUpdating = true`. -/
def syncFireDuring (st : SyncState) : SyncState :=
  { st with syncing := true, updating := true }

/-- The debounced sync firing: skip when `isSyncingInput` is set; otherwise
raise both guards, compute `applyLoraValuesToText(inputWidget.value,
lorasValue)`, assign the widget only when the result differs, and finally
clear both guards.  The encoder is the upstream `applyLoraValuesToText`,
passed in as a parameter. -/
def syncFire (applyLoraValuesToText : String → List LoraEntry → String)
    (st : SyncState) (lorasValue : List LoraEntry) : SyncState :=
  if st.syncing then st
  else
    let during := syncFireDuring st
    let nextText := applyLoraValuesToText during.text lorasValue
    let afterWrite :=
      if during.text ≠ nextText then
        { during with text := nextText, writes := during.writes + 1 }
      else during
    { afterWrite with updating := false, syncing := false }

/-- The loader's `addLorasWidget` callback (structured-list change): drop when
`isUpdating`; otherwise recompute the chain-wide active set (the upstream
`collectActiveLorasFromChain`, passed in as `collect`), hand it to the
trigger-word collaborators, and schedule the debounced text sync with the new
list. -/
def loaderLorasCallback (collect : List LoraEntry → List String)
    (st : SyncState) (value : List LoraEntry) : SyncState :=
  if st.updating then st
  else
    scheduleInputSync
      { st with propagated := st.propagated ++ [collect value] } value

/-- The loader's `inputWidget.callback` (text change): drop when `isUpdating`;
otherwise merge the decoded text with the current structured list, install the
merged list as the widget value, recompute the chain-wide active set and hand
it to the trigger-word collaborators. -/
def loaderTextCallback (collect : List LoraEntry → List String)
    (st : SyncState) (value : String) : SyncState :=
  if st.updating then st
  else
    let mergedLoras := mergeLoras value st.entries
    { st with
        entries := mergedLoras,
        propagated := st.propagated ++ [collect mergedLoras] }

/-- `this.mode === undefined || this.mode === 0 || this.mode === 3` of the
stacker shim; `none` stands for `undefined`. -/
def stackerModeActive (mode : Option Int) : Bool :=
  mode = none ∨ mode = some 0 ∨ mode = some 3

/-- The stacker's `addLorasWidget` callback: drop when `isUpdating`; otherwise
contribute the names of the active entries of the new list when the node is
active and the empty set when it is bypassed/disabled, then schedule the
debounced text sync. -/
def stackerLorasCallback (mode : Option Int) (st : SyncState)
    (value : List LoraEntry) : SyncState :=
  if st.updating then st
  else
    scheduleInputSync
      { st with
          propagated := st.propagated ++
            [if stackerModeActive mode then activeNamesOf value else []] }
      value

/-- The stacker's `inputWidget.callback` (text change): drop when
`isUpdating`; otherwise merge the decoded text with the current list, install
it, and contribute the merged list's active names (the upstream
`getActiveLorasFromNode`, modelled from the spec as the names of the node's
active entries) when the node is active, the empty set otherwise. -/
def stackerTextCallback (mode : Option Int) (st : SyncState) (value : String) :
    SyncState :=
  if st.updating then st
  else
    let mergedLoras := mergeLoras value st.entries
    { st with
        entries := mergedLoras,
        propagated := st.propagated ++
          [if stackerModeActive mode then activeNamesOf mergedLoras else []] }

/-! ## Reverse-proxy route table (modelled from the spec)

The proxy middleware is Python code of this repository that is not among the
web sources; the spec describes it as an ordered table of path rules, exact or
`*`-suffixed path patterns, first match wins. -/

inductive Disposition where
  | forward
  | localHandle
deriving DecidableEq

/-- Modelled from the spec: a route rule — a path pattern and a disposition. -/
structure RouteRule where
  pathPattern : String
  disposition : Disposition
deriving DecidableEq

/-- Modelled from the spec: a `*`-suffixed pattern matches every path starting
with the part before the `*`; any other pattern matches exactly. -/
def ruleMatches (rule : RouteRule) (path : String) : Bool :=
  if rule.pathPattern.data.getLast? = some '*' then
    rule.pathPattern.data.dropLast.isPrefixOf path.data
  else rule.pathPattern = path

/-- Modelled from the spec: consult the ordered table once, first match wins. -/
def routeRequest (table : List RouteRule) (path : String) : Option RouteRule :=
  table.find? fun r => ruleMatches r path

/-- Modelled from the spec: the trigger-words endpoint is handled locally
(its result is broadcast to local listeners), the general `/api/lm/` range is
forwarded to the remote instance. -/
def lmRules : List RouteRule :=
  [{ pathPattern := "/api/lm/loras/get_trigger_words",
     disposition := .localHandle },
   { pathPattern := "/api/lm/*", disposition := .forward }]

/-! ## Helper lemmas -/

/-- A found entry carries the looked-up name. -/
theorem findByName_name_eq {l : List LoraEntry} {n : String} {x : LoraEntry}
    (h : findByName l n = some x) : x.name = n := by
  simpa using List.find?_some h

/-- Looking a name up in the current-entries half of the merge: the hit keeps
the current entry's `active` flag and adopts the incoming strength. -/
theorem find?_map_merge (incoming : List LoraEntry) (n : String)
    (i : LoraEntry)
    (hi : List.find? (fun e => decide (e.name = n)) incoming = some i) :
    ∀ (current : List LoraEntry) (c : LoraEntry),
      List.find? (fun e => decide (e.name = n)) current = some c →
      List.find? (fun e : LoraEntry => decide (e.name = n))
        (current.map fun x : LoraEntry =>
          match List.find? (fun e => decide (e.name = x.name)) incoming with
          | some j =>
            ({ name := x.name, strength := j.strength,
               active := x.active } : LoraEntry)
          | none => x)
        = some { name := n, strength := i.strength, active := c.active } := by
  intro current
  induction current with
  | nil => intro c h; simp at h
  | cons a rest ih =>
    intro c h
    by_cases ha : a.name = n
    · rw [List.find?_cons_of_pos _ (by simp [ha])] at h
      injection h with h'
      subst h'
      rw [List.map_cons, List.find?_cons_of_pos]
      · rw [ha, hi]
      · cases hfa : List.find? (fun e => decide (e.name = a.name)) incoming <;>
          simp [hfa, ha]
    · rw [List.find?_cons_of_neg _ (by simp [ha])] at h
      rw [List.map_cons, List.find?_cons_of_neg]
      · exact ih c h
      · cases hfa : List.find? (fun e => decide (e.name = a.name)) incoming <;>
          simp [hfa, ha]

/-- An entry present in both lists: the merge keeps the current entry's
`active` flag and adopts the incoming entry's strength. -/
theorem findByName_mergeEntries_both {incoming current : List LoraEntry}
    {n : String} {i c : LoraEntry}
    (hi : findByName incoming n = some i)
    (hc : findByName current n = some c) :
    findByName (mergeEntries incoming current) n
      = some { name := n, strength := i.strength, active := c.active } := by
  simp only [findByName, mergeEntries] at hi hc ⊢
  rw [List.find?_append, find?_map_merge incoming n i hi current c hc]
  rfl

/-- Replacing the node that `find?` returned by itself leaves the graph
unchanged. -/
theorem replaceFirstById_self :
    ∀ {graph : List Node} {nid : Int} {node : Node},
      graph.find? (fun n => n.id = nid) = some node →
      replaceFirstById graph nid node = graph := by
  intro graph
  induction graph with
  | nil => intro nid node h; simp at h
  | cons a rest ih =>
    intro nid node h
    by_cases ha : a.id = nid
    · rw [List.find?_cons_of_pos _ (by simpa using ha)] at h
      cases h
      simp [replaceFirstById, ha]
    · rw [List.find?_cons_of_neg _ (by simpa using ha)] at h
      simp [replaceFirstById, ha, ih h]

/-- Positions holding a node with a different id are untouched by
`replaceFirstById`. -/
theorem replaceFirstById_getElem?_ne :
    ∀ (graph : List Node) (nid : Int) (node : Node) (k : Nat),
      (∀ x, graph[k]? = some x → x.id ≠ nid) →
      (replaceFirstById graph nid node)[k]? = graph[k]? := by
  intro graph
  induction graph with
  | nil => intro nid node k _; simp [replaceFirstById]
  | cons a rest ih =>
    intro nid node k hk
    by_cases ha : a.id = nid
    · cases k with
      | zero => exact absurd ha (hk a (by simp))
      | succ m => simp [replaceFirstById, ha]
    · cases k with
      | zero => simp [replaceFirstById, ha]
      | succ m =>
        simp only [replaceFirstById, if_neg ha, List.getElem?_cons_succ]
        exact ih nid node m (by simpa using hk)

/-! ## Claim theorems -/

/-- C3: a structured-list or text change handler invoked while the `Updating`
flag is set returns immediately: the whole state — entry list, text value,
both guard flags, propagated active sets, pending sync — is unchanged, on the
loader and on the stacker alike. -/
theorem updating_guard_drops_reentrant_calls
    (collect : List LoraEntry → List String) (mode : Option Int)
    (st : SyncState) (t : String) (l : List LoraEntry)
    (h : st.updating = true) :
    loaderTextCallback collect st t = st
    ∧ loaderLorasCallback collect st l = st
    ∧ stackerTextCallback mode st t = st
    ∧ stackerLorasCallback mode st l = st := by
  refine ⟨?_, ?_, ?_, ?_⟩ <;>
    simp [loaderTextCallback, loaderLorasCallback, stackerTextCallback,
      stackerLorasCallback, h]

theorem updating_guard_drops_reentrant_calls_witness :
    loaderTextCallback (fun _ => [])
        ⟨true, false, "t", [], [], none, 0⟩ "<lora:a:1>"
      = ⟨true, false, "t", [], [], none, 0⟩
    ∧ loaderLorasCallback (fun _ => [])
        ⟨true, false, "t", [], [], none, 0⟩ [⟨"a", "1", true⟩]
      = ⟨true, false, "t", [], [], none, 0⟩
    ∧ stackerTextCallback none
        ⟨true, false, "t", [], [], none, 0⟩ "<lora:a:1>"
      = ⟨true, false, "t", [], [], none, 0⟩
    ∧ stackerLorasCallback none
        ⟨true, false, "t", [], [], none, 0⟩ [⟨"a", "1", true⟩]
      = ⟨true, false, "t", [], [], none, 0⟩ :=
  updating_guard_drops_reentrant_calls (fun _ => []) none
    ⟨true, false, "t", [], [], none, 0⟩ "<lora:a:1>" [⟨"a", "1", true⟩] rfl

/-- C4: a lora-code update in `"append"` mode on existing text `"foo"` with
payload `"<lora:bar:0.8>"` sets the widget text to `"foo <lora:bar:0.8>"`
(joined by one space), and `"replace"` mode sets it to exactly the payload. -/
theorem lora_code_update_append_replace_modes :
    (updateNodeLoraCode ⟨1, loaderClass, some ⟨"foo", false⟩⟩
        "<lora:bar:0.8>" "append").1.inputWidget
      = some ⟨"foo <lora:bar:0.8>", false⟩
    ∧ (updateNodeLoraCode ⟨1, loaderClass, some ⟨"foo", false⟩⟩
        "<lora:bar:0.8>" "replace").1.inputWidget
      = some ⟨"<lora:bar:0.8>", false⟩ := by decide

/-- C6: when the debounced sync fires with `SyncingInput` set it is skipped
entirely (the state is untouched); otherwise the encoded text is written back
exactly when it differs from the current text, and when it is equal neither
the text nor the write counter changes, so no change notification occurs. -/
theorem sync_fire_skip_and_conditional_write
    (encode : String → List LoraEntry → String) (st : SyncState)
    (v : List LoraEntry) :
    (st.syncing = true → syncFire encode st v = st)
    ∧ (st.syncing = false → st.text = encode st.text v →
        syncFire encode st v = { st with updating := false, syncing := false })
    ∧ (st.syncing = false → st.text ≠ encode st.text v →
        syncFire encode st v =
          { st with text := encode st.text v, writes := st.writes + 1,
                    updating := false, syncing := false }) := by
  refine ⟨?_, ?_, ?_⟩
  · intro h; simp [syncFire, h]
  · intro h he; simp [syncFire, syncFireDuring, h, ← he]
  · intro h hne; simp [syncFire, syncFireDuring, h, hne]

theorem sync_fire_skip_and_conditional_write_witness :
    syncFire (fun t _ => t ++ "!") ⟨false, true, "t", [], [], none, 0⟩ []
      = ⟨false, true, "t", [], [], none, 0⟩
    ∧ syncFire (fun t _ => t) ⟨false, false, "t", [], [], none, 0⟩ []
      = ⟨false, false, "t", [], [], none, 0⟩
    ∧ syncFire (fun t _ => t ++ "!") ⟨false, false, "t", [], [], none, 0⟩ []
      = ⟨false, false, "t!", [], [], none, 1⟩ :=
  ⟨(sync_fire_skip_and_conditional_write (fun t _ => t ++ "!")
      ⟨false, true, "t", [], [], none, 0⟩ []).1 rfl,
   (sync_fire_skip_and_conditional_write (fun t _ => t)
      ⟨false, false, "t", [], [], none, 0⟩ []).2.1 rfl rfl,
   (sync_fire_skip_and_conditional_write (fun t _ => t ++ "!")
      ⟨false, false, "t", [], [], none, 0⟩ []).2.2 rfl (by decide)⟩

/-- C7: an entry change on a bypassed/disabled stacker (execution mode not
`undefined`, `0` or `3`) contributes the empty active-name set on both the
structured-list path and the text path, whatever the entries' flags; on an
active stacker the structured-list path contributes exactly the names of the
entries with `active = true`. -/
theorem stacker_mode_gates_active_set (mode : Option Int) (st : SyncState)
    (value : List LoraEntry) (t : String) (h : st.updating = false) :
    (stackerModeActive mode = false →
      (stackerLorasCallback mode st value).propagated = st.propagated ++ [[]]
      ∧ (stackerTextCallback mode st t).propagated = st.propagated ++ [[]])
    ∧ (stackerModeActive mode = true →
      (stackerLorasCallback mode st value).propagated
        = st.propagated ++ [activeNamesOf value]
      ∧ ∀ n, n ∈ activeNamesOf value
          ↔ ∃ e ∈ value, e.active = true ∧ e.name = n) := by
  constructor
  · intro hm
    constructor <;>
      simp [stackerLorasCallback, stackerTextCallback, scheduleInputSync,
        h, hm]
  · intro hm
    constructor
    · simp [stackerLorasCallback, scheduleInputSync, h, hm]
    · intro n
      simp only [activeNamesOf, List.mem_map, List.mem_filter]
      constructor
      · rintro ⟨a, ⟨ha, hact⟩, rfl⟩; exact ⟨a, ha, hact, rfl⟩
      · rintro ⟨e, he, hact, rfl⟩; exact ⟨e, ⟨he, hact⟩, rfl⟩

theorem stacker_mode_gates_active_set_witness :
    ((stackerLorasCallback (some 2)
        ⟨false, false, "t", [], [], none, 0⟩ [⟨"a", "1", true⟩]).propagated
      = [] ++ [[]]
    ∧ (stackerTextCallback (some 2)
        ⟨false, false, "t", [], [], none, 0⟩ "x").propagated = [] ++ [[]])
    ∧ ((stackerLorasCallback (some 0)
        ⟨false, false, "t", [], [], none, 0⟩
          [⟨"a", "1", true⟩, ⟨"b", "1", false⟩]).propagated
      = [] ++ [activeNamesOf [⟨"a", "1", true⟩, ⟨"b", "1", false⟩]]
    ∧ ("a" ∈ activeNamesOf [⟨"a", "1", true⟩, ⟨"b", "1", false⟩]
        ↔ ∃ e ∈ [(⟨"a", "1", true⟩ : LoraEntry), ⟨"b", "1", false⟩],
            e.active = true ∧ e.name = "a")) :=
  ⟨(stacker_mode_gates_active_set (some 2)
      ⟨false, false, "t", [], [], none, 0⟩ [⟨"a", "1", true⟩] "x" rfl).1
      (by decide),
   ⟨((stacker_mode_gates_active_set (some 0)
      ⟨false, false, "t", [], [], none, 0⟩
      [⟨"a", "1", true⟩, ⟨"b", "1", false⟩] "x" rfl).2 (by decide)).1,
    ((stacker_mode_gates_active_set (some 0)
      ⟨false, false, "t", [], [], none, 0⟩
      [⟨"a", "1", true⟩, ⟨"b", "1", false⟩] "x" rfl).2 (by decide)).2 "a"⟩⟩

/-- C9: for an append-mode lora-code update, a blank (empty or
whitespace-only) current text yields exactly the payload with no separator,
a non-blank current text is trimmed and joined to the payload by one space,
and whenever the widget has a callback it is invoked with the new value. -/
theorem lora_code_append_blank_trim_callback (node : Node) (w : Widget)
    (code mode : String) (h : node.inputWidget = some w) :
    ∃ v,
      (updateNodeLoraCode node code mode).1
        = { node with inputWidget := some { w with value := v } }
      ∧ (updateNodeLoraCode node code mode).2
        = (if w.hasCallback then some v else none)
      ∧ (mode = "append" → jsTrim w.value = "" → v = code)
      ∧ (mode = "append" → jsTrim w.value ≠ "" →
          v = jsTrim w.value ++ " " ++ code) := by
  refine ⟨if mode = "replace" then code
    else if jsTrim w.value ≠ "" then jsTrim w.value ++ " " ++ code
    else code, ?_, ?_, ?_, ?_⟩
  · simp only [updateNodeLoraCode, h]
  · simp only [updateNodeLoraCode, h]
  · intro hm ht; simp [hm, ht]
  · intro hm ht; simp [hm, ht]

theorem lora_code_append_blank_trim_callback_witness :
    ∃ v,
      (updateNodeLoraCode ⟨1, "Lora Loader (Remote, LoraManager)",
          some ⟨"  ", true⟩⟩ "<lora:x:1>" "append").1
        = { (⟨1, "Lora Loader (Remote, LoraManager)",
            some ⟨"  ", true⟩⟩ : Node) with
              inputWidget := some { (⟨"  ", true⟩ : Widget) with value := v } }
      ∧ (updateNodeLoraCode ⟨1, "Lora Loader (Remote, LoraManager)",
          some ⟨"  ", true⟩⟩ "<lora:x:1>" "append").2
        = (if (true : Bool) then some v else none)
      ∧ ("append" = "append" → jsTrim "  " = "" → v = "<lora:x:1>")
      ∧ ("append" = "append" → jsTrim "  " ≠ "" →
          v = jsTrim "  " ++ " " ++ "<lora:x:1>") :=
  lora_code_append_blank_trim_callback
    ⟨1, "Lora Loader (Remote, LoraManager)", some ⟨"  ", true⟩⟩
    ⟨"  ", true⟩ "<lora:x:1>" "append" rfl

/-- C1: a text change arriving while the `Updating` guard is clear replaces
the structured list by `merge(decode(text), current)` — an entry present in
both keeps the current list's `active` flag (a textual edit never disables an
entry) and adopts the incoming strength — and then the recomputed active-name
set is handed to the trigger-word collaborators; this holds on the loader and
on the stacker. -/
theorem text_change_merges_and_propagates
    (collect : List LoraEntry → List String) (mode : Option Int)
    (st : SyncState) (v : String) (h : st.updating = false) :
    ((loaderTextCallback collect st v).entries = mergeLoras v st.entries
      ∧ (loaderTextCallback collect st v).propagated
          = st.propagated ++ [collect (mergeLoras v st.entries)]
      ∧ ∀ n i c, findByName (decodeLoras v) n = some i →
          findByName st.entries n = some c →
          findByName (loaderTextCallback collect st v).entries n
            = some { name := n, strength := i.strength, active := c.active })
    ∧ ((stackerTextCallback mode st v).entries = mergeLoras v st.entries
      ∧ (stackerTextCallback mode st v).propagated
          = st.propagated
            ++ [if stackerModeActive mode then
                  activeNamesOf (mergeLoras v st.entries) else []]
      ∧ ∀ n i c, findByName (decodeLoras v) n = some i →
          findByName st.entries n = some c →
          findByName (stackerTextCallback mode st v).entries n
            = some { name := n, strength := i.strength, active := c.active }) := by
  have hL : loaderTextCallback collect st v
      = { st with
          entries := mergeLoras v st.entries
          propagated :=
            (st.propagated ++ [collect (mergeLoras v st.entries)]) } := by
    simp [loaderTextCallback, h]
  have hS : stackerTextCallback mode st v
      = { st with
          entries := mergeLoras v st.entries
          propagated :=
            (st.propagated
              ++ [if stackerModeActive mode then
                    activeNamesOf (mergeLoras v st.entries) else []]) } := by
    simp [stackerTextCallback, h]
  refine ⟨⟨by rw [hL], by rw [hL], ?_⟩, ⟨by rw [hS], by rw [hS], ?_⟩⟩ <;>
    · intro n i c hi hc
      first
        | rw [hL]
        | rw [hS]
      exact findByName_mergeEntries_both hi hc

theorem text_change_merges_and_propagates_witness :
    (loaderTextCallback activeNamesOf
        ⟨false, false, "", [⟨"a", "1", false⟩], [], none, 0⟩
        "<lora:a:0.5>").entries
      = mergeLoras "<lora:a:0.5>" [⟨"a", "1", false⟩]
    ∧ findByName
        (loaderTextCallback activeNamesOf
          ⟨false, false, "", [⟨"a", "1", false⟩], [], none, 0⟩
          "<lora:a:0.5>").entries "a"
      = some ⟨"a", "0.5", false⟩ := by
  have h := text_change_merges_and_propagates activeNamesOf none
    ⟨false, false, "", [⟨"a", "1", false⟩], [], none, 0⟩ "<lora:a:0.5>" rfl
  exact ⟨h.1.1,
    h.1.2.2 "a" ⟨"a", "0.5", true⟩ ⟨"a", "1", false⟩ (by decide) (by decide)⟩

/-- C2: a structured-list change (with the guard clear) schedules exactly one
pending debounced sync; when that sync fires it performs at most one write to
the text widget, and the state it writes in has both `Updating` and
`SyncingInput` raised, at which both the text and the structured-list handlers
are identities — no cycle of alternating updates is possible. -/
theorem structured_change_single_write_no_reentry
    (encode : String → List LoraEntry → String)
    (collect : List LoraEntry → List String)
    (st : SyncState) (value : List LoraEntry) (h : st.updating = false) :
    ((loaderLorasCallback collect st value).pending = some value)
    ∧ (∀ v, (syncFire encode (loaderLorasCallback collect st value) v).writes
        ≤ (loaderLorasCallback collect st value).writes + 1)
    ∧ ((syncFireDuring (loaderLorasCallback collect st value)).updating = true
      ∧ (syncFireDuring (loaderLorasCallback collect st value)).syncing
          = true)
    ∧ (∀ t, loaderTextCallback collect
          (syncFireDuring (loaderLorasCallback collect st value)) t
        = syncFireDuring (loaderLorasCallback collect st value))
    ∧ (∀ l, loaderLorasCallback collect
          (syncFireDuring (loaderLorasCallback collect st value)) l
        = syncFireDuring (loaderLorasCallback collect st value)) := by
  refine ⟨?_, ?_, ⟨?_, ?_⟩, ?_, ?_⟩
  · simp [loaderLorasCallback, scheduleInputSync, h]
  · intro v
    by_cases hs : (loaderLorasCallback collect st value).syncing = true
    · simp [syncFire, hs]
    · simp only [syncFire, Bool.not_eq_true] at hs ⊢
      rw [hs]
      simp only [Bool.false_eq_true, if_false, syncFireDuring]
      split <;> simp [Nat.le_succ]
  · simp [syncFireDuring]
  · simp [syncFireDuring]
  · intro t; simp [loaderTextCallback, syncFireDuring]
  · intro l; simp [loaderLorasCallback, syncFireDuring]

theorem structured_change_single_write_no_reentry_witness :
    ((loaderLorasCallback (fun l => activeNamesOf l)
        ⟨false, false, "", [], [], none, 0⟩ [⟨"a", "1", true⟩]).pending
      = some [⟨"a", "1", true⟩])
    ∧ ((syncFire (fun t _ => t ++ "!")
        (loaderLorasCallback (fun l => activeNamesOf l)
          ⟨false, false, "", [], [], none, 0⟩ [⟨"a", "1", true⟩])
        [⟨"a", "1", true⟩]).writes
      ≤ (loaderLorasCallback (fun l => activeNamesOf l)
          ⟨false, false, "", [], [], none, 0⟩ [⟨"a", "1", true⟩]).writes + 1)
    ∧ ((syncFireDuring (loaderLorasCallback (fun l => activeNamesOf l)
          ⟨false, false, "", [], [], none, 0⟩ [⟨"a", "1", true⟩])).updating
        = true)
    ∧ (loaderTextCallback (fun l => activeNamesOf l)
        (syncFireDuring (loaderLorasCallback (fun l => activeNamesOf l)
          ⟨false, false, "", [], [], none, 0⟩ [⟨"a", "1", true⟩]))
        "<lora:b:1>"
      = syncFireDuring (loaderLorasCallback (fun l => activeNamesOf l)
          ⟨false, false, "", [], [], none, 0⟩ [⟨"a", "1", true⟩]))
    ∧ (loaderLorasCallback (fun l => activeNamesOf l)
        (syncFireDuring (loaderLorasCallback (fun l => activeNamesOf l)
          ⟨false, false, "", [], [], none, 0⟩ [⟨"a", "1", true⟩])) []
      = syncFireDuring (loaderLorasCallback (fun l => activeNamesOf l)
          ⟨false, false, "", [], [], none, 0⟩ [⟨"a", "1", true⟩])) := by
  have h := structured_change_single_write_no_reentry (fun t _ => t ++ "!")
    (fun l => activeNamesOf l) ⟨false, false, "", [], [], none, 0⟩
    [⟨"a", "1", true⟩] rfl
  exact ⟨h.1, h.2.1 [⟨"a", "1", true⟩], h.2.2.1.1, h.2.2.2.1 "<lora:b:1>",
    h.2.2.2.2 []⟩

/-- C5 counterexample: a broadcast (`node_id = -1`) leaves a stacker node in
the graph untouched even though applying the update to it would change it —
the broadcast does not apply the update to every node in the graph. -/
theorem broadcast_skips_non_loader_node :
    (handleLoraCodeUpdate [⟨7, stackerClass, some ⟨"x", false⟩⟩]
        ⟨some (.num (-1)), "y", "replace"⟩).1
      = [⟨7, stackerClass, some ⟨"x", false⟩⟩]
    ∧ (updateNodeLoraCode ⟨7, stackerClass, some ⟨"x", false⟩⟩
        "y" "replace").1
      ≠ ⟨7, stackerClass, some ⟨"x", false⟩⟩ := by decide

/-- C5 (amended): a `node_id = -1` event (numeric or the string `"-1"`)
applies the lora-code update to exactly the nodes of the remote loader class,
leaving every other node unchanged; any other node id touches no node other
than the one carrying that id. -/
theorem broadcast_targets_loader_nodes (graph : List Node) (msg : Message) :
    (toNumericId msg.node_id = some (-1) →
      ∀ k : Nat, (hk : k < graph.length) →
        (handleLoraCodeUpdate graph msg).1[k]?
          = some (if graph[k].comfyClass = loaderClass
              then (updateNodeLoraCode graph[k] msg.lora_code msg.mode).1
              else graph[k]))
    ∧ (∀ nid, toNumericId msg.node_id = some nid → nid ≠ -1 →
        ∀ k : Nat, (hk : k < graph.length) → graph[k].id ≠ nid →
          (handleLoraCodeUpdate graph msg).1[k]? = some graph[k]) := by
  constructor
  · intro hm k hk
    simp only [handleLoraCodeUpdate, hm]
    simp [List.getElem?_map, List.getElem?_eq_getElem hk]
  · intro nid hm hne k hk hkid
    simp only [handleLoraCodeUpdate, hm]
    rw [if_neg hne]
    cases hf : graph.find? (fun n => n.id = nid) with
    | none => simp [List.getElem?_eq_getElem hk]
    | some node =>
      by_cases hcl : isRemoteLoraClass node.comfyClass = true
      · simp only [hcl, if_true]
        rw [replaceFirstById_getElem?_ne]
        · exact List.getElem?_eq_getElem hk
        · intro x hx
          rw [List.getElem?_eq_getElem hk] at hx
          injection hx with hx'
          rw [← hx']
          exact hkid
      · simp [hcl, List.getElem?_eq_getElem hk]

theorem broadcast_targets_loader_nodes_witness :
    (handleLoraCodeUpdate
        [⟨1, loaderClass, some ⟨"", false⟩⟩,
         ⟨2, stackerClass, some ⟨"x", false⟩⟩]
        ⟨some (.str "-1"), "y", "replace"⟩).1[0]?
      = some ⟨1, loaderClass, some ⟨"y", false⟩⟩
    ∧ (handleLoraCodeUpdate
        [⟨1, loaderClass, some ⟨"", false⟩⟩,
         ⟨2, stackerClass, some ⟨"x", false⟩⟩]
        ⟨some (.str "-1"), "y", "replace"⟩).1[1]?
      = some ⟨2, stackerClass, some ⟨"x", false⟩⟩ := by
  have h := (broadcast_targets_loader_nodes
    [⟨1, loaderClass, some ⟨"", false⟩⟩,
     ⟨2, stackerClass, some ⟨"x", false⟩⟩]
    ⟨some (.str "-1"), "y", "replace"⟩).1 (by decide)
  constructor
  · rw [h 0 (by decide)]; decide
  · rw [h 1 (by decide)]; decide

/-- C10: a targeted (non-broadcast) lora-code update whose node id is not in
the graph, or whose node's class is none of the three remote lora classes, or
whose node has no input widget, returns leaving the whole graph unchanged and
invoking no widget callback. -/
theorem targeted_update_noop_on_invalid_node (graph : List Node)
    (msg : Message) (hne : toNumericId msg.node_id ≠ some (-1))
    (hbad : ∀ nid, toNumericId msg.node_id = some nid →
      ∀ node, graph.find? (fun n => n.id = nid) = some node →
        isRemoteLoraClass node.comfyClass = false ∨ node.inputWidget = none) :
    handleLoraCodeUpdate graph msg = (graph, []) := by
  cases hm : toNumericId msg.node_id with
  | none => simp only [handleLoraCodeUpdate, hm]
  | some nid =>
    have hne' : ¬nid = -1 := fun hcon => hne (by rw [hm, hcon])
    simp only [handleLoraCodeUpdate, hm]
    rw [if_neg hne']
    cases hf : graph.find? (fun n => n.id = nid) with
    | none => rfl
    | some node =>
      rcases hbad nid hm node hf with hcl | hw
      · simp [hcl]
      · by_cases hcl2 : isRemoteLoraClass node.comfyClass = true
        · have hupd : updateNodeLoraCode node msg.lora_code msg.mode
              = (node, none) := by
            unfold updateNodeLoraCode; rw [hw]
          simp only [hcl2, if_true, hupd]
          rw [replaceFirstById_self hf]
        · simp [hcl2]

theorem targeted_update_noop_on_invalid_node_witness :
    handleLoraCodeUpdate [⟨5, "Note", none⟩] ⟨some (.num 5), "y", "append"⟩
      = ([⟨5, "Note", none⟩], []) := by
  apply targeted_update_noop_on_invalid_node
  · decide
  · intro nid hm node hf
    have hmem := List.mem_of_find?_eq_some hf
    rw [List.mem_singleton] at hmem
    rw [hmem]
    exact Or.inl (by decide)

/-- C8: the route table is an ordered list and the first matching rule wins —
any selected rule matches the path and every rule listed before it does not —
and on the table `[get_trigger_words ↦ localHandle, /api/lm/* ↦ forward]` the
trigger-words path is handled locally while `/api/lm/loras/list` is
forwarded. -/
theorem route_first_match_wins (table : List RouteRule) (path : String)
    (r : RouteRule) (h : routeRequest table path = some r) :
    (ruleMatches r path = true
      ∧ ∃ pre post, table = pre ++ r :: post
          ∧ ∀ q ∈ pre, ruleMatches q path = false)
    ∧ routeRequest lmRules "/api/lm/loras/get_trigger_words"
        = some ⟨"/api/lm/loras/get_trigger_words", .localHandle⟩
    ∧ routeRequest lmRules "/api/lm/loras/list"
        = some ⟨"/api/lm/*", .forward⟩ := by
  refine ⟨?_, by decide, by decide⟩
  rw [routeRequest, List.find?_eq_some] at h
  obtain ⟨hr, pre, post, htab, hpre⟩ := h
  exact ⟨hr, pre, post, htab, fun q hq => by simpa using hpre q hq⟩

theorem route_first_match_wins_witness :
    (ruleMatches ⟨"/api/lm/*", .forward⟩ "/api/lm/loras/list" = true
      ∧ ∃ pre post, lmRules
            = pre ++ (⟨"/api/lm/*", .forward⟩ : RouteRule) :: post
          ∧ ∀ q ∈ pre, ruleMatches q "/api/lm/loras/list" = false)
    ∧ routeRequest lmRules "/api/lm/loras/get_trigger_words"
        = some ⟨"/api/lm/loras/get_trigger_words", .localHandle⟩
    ∧ routeRequest lmRules "/api/lm/loras/list"
        = some ⟨"/api/lm/*", .forward⟩ :=
  route_first_match_wins lmRules "/api/lm/loras/list"
    ⟨"/api/lm/*", .forward⟩ (by decide)

end LMRemote
